import Mathlib

/-
Verification of the reading-list management core of the
Kesin11/vscode-dev-day-tokyo-demo browser extension.

The embedding below is a shallow model of the TypeScript sources:
- src/src/backend/background.ts  (getSettings, markAsReadIfOlder, deleteIfOlder,
  processReadingList)
- src/unnamed/part_002, first document  (calculateDaysSinceCreation,
  classifyEntries, processReadingListEntries)
- src/unnamed/part_002, third document  (the selection filter of markEntriesAsRead)

Conventions of the embedding:
- Epoch-millisecond timestamps and day thresholds are Int.
- Date.now() is embedded as an explicit parameter now; functions that call
  Date.now() separately (the two phases of processReadingList) receive separate
  now1 / now2 parameters.
- chrome.readingList is embedded as a List Entry state; updateEntry and
  removeEntry become markUrlRead and removeUrl.
- A fallible chrome mutation call is embedded as a Bool-valued oracle telling
  whether a given attempt succeeds; a fallible source read is an Except value
  (settings) or an Ok flag (entry fetches, which on success return the current
  state).
- setTimeout backoff delays are recorded as a list of waited milliseconds.
- Mutations actually issued (successful chrome calls) are recorded as a trace
  of MutEvent values, in execution order.
-/

/-- Milliseconds per day: the constant 24 * 60 * 60 * 1000 = 86400000 used by
every variant of the source. -/
def msPerDay : Int := 86400000

/-- One reading-list item, mirroring chrome.readingList.ReadingListEntry as the
source uses it. -/
structure Entry where
  url : String
  title : String
  hasBeenRead : Bool
  creationTime : Int
  lastUpdateTime : Int
deriving DecidableEq

/-- The two user thresholds, mirroring the Settings shape returned by
getSettings. -/
structure Settings where
  daysUntilRead : Int
  daysUntilDelete : Int
deriving DecidableEq

/-- getSettings of src/src/backend/background.ts lines 40-53: reads the keys
daysUntilRead and daysUntilDelete from chrome.storage.local (the store's reply
is modelled as a pair of optional values) and substitutes the defaults with
result.daysUntilRead ?? 30 and result.daysUntilDelete ?? 60. -/
def getSettings (stored : Option Int × Option Int) : Settings :=
  ⟨(stored.1).getD 30, (stored.2).getD 60⟩

/-- calculateDaysSinceCreation of src/unnamed/part_002 lines 65-69:
Math.floor((now - creationTime) / 86400000).  Math.floor of the real quotient
of two integers is floor division, Int.fdiv. -/
def calculateDaysSinceCreation (now creationTime : Int) : Int :=
  Int.fdiv (now - creationTime) msPerDay

/-- classifyEntries of src/unnamed/part_002 lines 82-104: one pass over the
entries; an entry whose floored age in days is at least daysUntilDelete is
pushed onto toDelete, otherwise if the age is at least daysUntilRead and the
entry is unread it is pushed onto toMarkRead, otherwise it is skipped.  The
result pair is (toMarkRead, toDelete), both in input order. -/
def classifyEntries : List Entry → Settings → Int → List Entry × List Entry
  | [], _, _ => ([], [])
  | entry :: rest, settings, now =>
    let r := classifyEntries rest settings now
    if settings.daysUntilDelete ≤ calculateDaysSinceCreation now entry.creationTime then
      (r.1, entry :: r.2)
    else if settings.daysUntilRead ≤ calculateDaysSinceCreation now entry.creationTime ∧
        entry.hasBeenRead = false then
      (entry :: r.1, r.2)
    else
      r

/-- The Boolean test under which classifyEntries pushes an entry onto
toDelete. -/
def deletePred (settings : Settings) (now : Int) (e : Entry) : Bool :=
  decide (settings.daysUntilDelete ≤ calculateDaysSinceCreation now e.creationTime)

/-- The Boolean test under which classifyEntries pushes an entry onto
toMarkRead: not eligible for deletion, old enough to mark read, and unread. -/
def markReadPred (settings : Settings) (now : Int) (e : Entry) : Bool :=
  !deletePred settings now e &&
    decide (settings.daysUntilRead ≤ calculateDaysSinceCreation now e.creationTime) &&
    !e.hasBeenRead

/-- One successfully issued mutation against the reading list. -/
inductive MutEvent where
  | markRead (url : String)
  | delete (url : String)
deriving DecidableEq

/-- Whether an event is a mark-as-read mutation. -/
def isMarkEvent : MutEvent → Bool
  | .markRead _ => true
  | .delete _ => false

/-- Whether an event is a delete mutation. -/
def isDeleteEvent : MutEvent → Bool
  | .markRead _ => false
  | .delete _ => true

/-- A trace satisfies marksFirst when every mark-as-read mutation in it comes
before every delete mutation: after dropping the leading marks only deletes
remain. -/
def marksFirst (tr : List MutEvent) : Bool :=
  (tr.dropWhile isMarkEvent).all isDeleteEvent

/-- A trace satisfies deletesFirst when every delete mutation in it comes
before every mark-as-read mutation: after dropping the leading deletes only
marks remain. -/
def deletesFirst (tr : List MutEvent) : Bool :=
  (tr.dropWhile isDeleteEvent).all isMarkEvent

/-- The filter of markAsReadIfOlder, src/src/backend/background.ts lines 66-71:
thresholdTime = daysThreshold * 86400000, keep entries with !hasBeenRead and
now - creationTime >= thresholdTime. -/
def markSelect (now daysThreshold : Int) (e : Entry) : Bool :=
  !e.hasBeenRead && decide (daysThreshold * msPerDay ≤ now - e.creationTime)

/-- The filter of deleteIfOlder, src/src/backend/background.ts lines 117-122:
keep entries with now - creationTime >= daysThreshold * 86400000, ignoring
hasBeenRead. -/
def deleteSelect (now daysThreshold : Int) (e : Entry) : Bool :=
  decide (daysThreshold * msPerDay ≤ now - e.creationTime)

/-- The selection of markEntriesAsRead in the third document of
src/unnamed/part_002, lines 473-480: thresholdTime = now - daysUntilRead *
86400000, keep entries with !hasBeenRead and creationTime < thresholdTime
(a strict comparison on the creation time). -/
def markEntriesAsReadFilter (entries : List Entry) (now daysUntilRead : Int) :
    List Entry :=
  entries.filter fun e =>
    !e.hasBeenRead && decide (e.creationTime < now - daysUntilRead * msPerDay)

/-- The outcome of the per-entry retry loop of background.ts: whether the
mutation eventually succeeded, how many times the chrome call was invoked, and
the backoff delays (in milliseconds) waited between attempts, in order. -/
structure RetryResult where
  succeeded : Bool
  attempts : Nat
  waits : List Nat
deriving DecidableEq

/-- The while-loop of markAsReadIfOlder / deleteIfOlder,
src/src/backend/background.ts lines 77-100 and 128-148, for one entry.
oracle n tells whether the chrome call succeeds when retryCount = n; the
second argument is the current retryCount written as the number of attempts
still allowed (maxRetries - retryCount).  On a failure that does not exhaust
maxRetries the code waits 2 ^ (retryCount - 1) * 1000 ms, where retryCount has
just been incremented; after the final failure it exits without waiting. -/
def retryMutation (oracle : Nat → Bool) : Nat → Nat → RetryResult
  | _, 0 => ⟨false, 0, []⟩
  | attempt, remaining + 1 =>
    if oracle attempt then ⟨true, 1, []⟩
    else if remaining = 0 then ⟨false, 1, []⟩
    else
      let r := retryMutation oracle (attempt + 1) remaining
      ⟨r.succeeded, r.attempts + 1, 2 ^ attempt * 1000 :: r.waits⟩

/-- chrome.readingList.updateEntry {url, hasBeenRead: true}: set the read flag
of the entry (or entries) with the given url. -/
def markUrlRead (st : List Entry) (url : String) : List Entry :=
  st.map fun e => if e.url = url then { e with hasBeenRead := true } else e

/-- chrome.readingList.removeEntry {url}: remove the entry (or entries) with
the given url. -/
def removeUrl (st : List Entry) (url : String) : List Entry :=
  st.filter fun e => !(e.url == url)

/-- The outcome of one executor run over a batch: final reading-list state,
the successCount the function returns, the per-entry retry outcomes in batch
order, and the successful mutations issued, in order. -/
structure RunResult where
  state : List Entry
  successCount : Nat
  results : List RetryResult
  trace : List MutEvent
deriving DecidableEq

/-- The for-loop of markAsReadIfOlder, src/src/backend/background.ts lines
75-101: process the selected entries in order; a successful retry loop updates
the entry and increments successCount, an exhausted one only logs and the loop
moves on to the next entry. -/
def markMutationLoop (oracle : String → Nat → Bool) (maxRetries : Nat) :
    List Entry → List Entry → RunResult
  | st, [] => ⟨st, 0, [], []⟩
  | st, e :: rest =>
    let r := retryMutation (oracle e.url) 0 maxRetries
    if r.succeeded = true then
      let k := markMutationLoop oracle maxRetries (markUrlRead st e.url) rest
      ⟨k.state, k.successCount + 1, r :: k.results, MutEvent.markRead e.url :: k.trace⟩
    else
      let k := markMutationLoop oracle maxRetries st rest
      ⟨k.state, k.successCount, r :: k.results, k.trace⟩

/-- markAsReadIfOlder of src/src/backend/background.ts lines 60-104: filter the
fetched snapshot by age and read state, then run the retry loop over the
selection and return successCount (plus, in this model, the state, per-entry
outcomes and trace). -/
def markAsReadIfOlder (st : List Entry) (now daysThreshold : Int)
    (maxRetries : Nat) (oracle : String → Nat → Bool) : RunResult :=
  markMutationLoop oracle maxRetries st (st.filter (markSelect now daysThreshold))

/-- The for-loop of deleteIfOlder, src/src/backend/background.ts lines 126-149:
same structure as markMutationLoop with removeEntry as the mutation. -/
def deleteMutationLoop (oracle : String → Nat → Bool) (maxRetries : Nat) :
    List Entry → List Entry → RunResult
  | st, [] => ⟨st, 0, [], []⟩
  | st, e :: rest =>
    let r := retryMutation (oracle e.url) 0 maxRetries
    if r.succeeded = true then
      let k := deleteMutationLoop oracle maxRetries (removeUrl st e.url) rest
      ⟨k.state, k.successCount + 1, r :: k.results, MutEvent.delete e.url :: k.trace⟩
    else
      let k := deleteMutationLoop oracle maxRetries st rest
      ⟨k.state, k.successCount, r :: k.results, k.trace⟩

/-- deleteIfOlder of src/src/backend/background.ts lines 111-152: filter the
fetched snapshot by age only, then run the retry loop over the selection and
return successCount (plus state, outcomes and trace). -/
def deleteIfOlder (st : List Entry) (now daysThreshold : Int)
    (maxRetries : Nat) (oracle : String → Nat → Bool) : RunResult :=
  deleteMutationLoop oracle maxRetries st (st.filter (deleteSelect now daysThreshold))

/-- The aggregate outcome of one processReadingList run. -/
structure OrchestratorRun where
  state : List Entry
  readCount : Nat
  deleteCount : Nat
  trace : List MutEvent
deriving DecidableEq

/-- processReadingList of src/src/backend/background.ts lines 158-180: read
settings (propagating a storage failure), then run markAsReadIfOlder with
daysUntilRead and afterwards deleteIfOlder with daysUntilDelete, each with the
default maxRetries = 3.  Each phase fetches the snapshot itself; a fetch
failure inside a phase is rethrown, which the catch clause of the orchestrator rethrows.
fetch1Ok / fetch2Ok model the two fetches: on success the fetch returns the
current reading-list state. -/
def processReadingList (settingsSrc : Except Unit (Option Int × Option Int))
    (fetch1Ok fetch2Ok : Bool) (st : List Entry) (now1 now2 : Int)
    (oracleMark oracleDelete : String → Nat → Bool) :
    Except Unit OrchestratorRun :=
  match settingsSrc with
  | .error e => .error e
  | .ok stored =>
    let settings := getSettings stored
    if fetch1Ok then
      let r1 := markAsReadIfOlder st now1 settings.daysUntilRead 3 oracleMark
      if fetch2Ok then
        let r2 := deleteIfOlder r1.state now2 settings.daysUntilDelete 3 oracleDelete
        .ok ⟨r2.state, r1.successCount, r2.successCount, r1.trace ++ r2.trace⟩
      else .error ()
    else .error ()

/-- The mutation trace of a completed orchestrator run; a failed run issued the
events of no completed phase pair, and is mapped to the empty trace here. -/
def okTrace (r : Except Unit OrchestratorRun) : List MutEvent :=
  match r with
  | .ok o => o.trace
  | .error _ => []

/-- Whether an Except-valued run completed without throwing. -/
def isOkResult {α : Type} : Except Unit α → Bool
  | .ok _ => true
  | .error _ => false

/-- The outcome of a mutation loop of processReadingListEntries (first document
of src/unnamed/part_002): final state, successful mutations in order, and
whether the loop ran to completion (false when a mutation threw, which aborts
the whole run). -/
structure P2Run where
  state : List Entry
  trace : List MutEvent
  completed : Bool
deriving DecidableEq

/-- The delete loop of processReadingListEntries, src/unnamed/part_002 lines
160-163: delete each classified entry in order via deleteEntry, which rethrows
on failure, aborting the loop. -/
def runDeleteLoop (oracle : String → Bool) : List Entry → List Entry → P2Run
  | st, [] => ⟨st, [], true⟩
  | st, e :: rest =>
    if oracle e.url then
      let k := runDeleteLoop oracle (removeUrl st e.url) rest
      ⟨k.state, MutEvent.delete e.url :: k.trace, k.completed⟩
    else ⟨st, [], false⟩

/-- The mark-as-read loop of processReadingListEntries, src/unnamed/part_002
lines 165-168: mark each classified entry in order via markEntryAsRead, which
rethrows on failure, aborting the loop. -/
def runMarkLoop (oracle : String → Bool) : List Entry → List Entry → P2Run
  | st, [] => ⟨st, [], true⟩
  | st, e :: rest =>
    if oracle e.url then
      let k := runMarkLoop oracle (markUrlRead st e.url) rest
      ⟨k.state, MutEvent.markRead e.url :: k.trace, k.completed⟩
    else ⟨st, [], false⟩

/-- processReadingListEntries of src/unnamed/part_002 lines 149-177: classify
the fetched snapshot once, then run the delete loop over toDelete and, if it
completed, the mark-as-read loop over toMarkRead. -/
def processReadingListEntries (settings : Settings) (st : List Entry)
    (now : Int) (oracleDelete oracleMark : String → Bool) : P2Run :=
  let c := classifyEntries st settings now
  let rD := runDeleteLoop oracleDelete st c.2
  if rD.completed = true then
    let rM := runMarkLoop oracleMark rD.state c.1
    ⟨rM.state, rD.trace ++ rM.trace, rM.completed⟩
  else ⟨rD.state, rD.trace, false⟩

/-- A sample unread entry created at epoch millisecond 0, used in concrete
instances of the theorems below. -/
def sampleEntry : Entry := ⟨"u", "t", false, 0, 0⟩

/- ------------------------------------------------------------------ -/
/- Lemmas about the classifier.                                        -/
/- ------------------------------------------------------------------ -/

/-- classifyEntries is the pair of filters by markReadPred and deletePred, in
input order. -/
theorem classifyEntries_eq_filter (entries : List Entry) (settings : Settings)
    (now : Int) :
    classifyEntries entries settings now =
      (entries.filter (markReadPred settings now),
       entries.filter (deletePred settings now)) := by
  induction entries with
  | nil => rfl
  | cons e rest ih =>
    simp only [classifyEntries, ih]
    by_cases hd : settings.daysUntilDelete ≤ calculateDaysSinceCreation now e.creationTime
    · simp [hd, deletePred, markReadPred, List.filter_cons]
    · by_cases hr : settings.daysUntilRead ≤ calculateDaysSinceCreation now e.creationTime
      · by_cases hb : e.hasBeenRead = true
        · simp [hd, hr, hb, deletePred, markReadPred, List.filter_cons]
        · simp [hd, hr, hb, deletePred, markReadPred, List.filter_cons]
      · simp [hd, hr, deletePred, markReadPred, List.filter_cons]

/-- The toMarkRead test holds exactly when the floored age lies in
[daysUntilRead, daysUntilDelete) and the entry is unread. -/
theorem markReadPred_eq_true_iff (settings : Settings) (now : Int) (e : Entry) :
    markReadPred settings now e = true ↔
      settings.daysUntilRead ≤ calculateDaysSinceCreation now e.creationTime ∧
      calculateDaysSinceCreation now e.creationTime < settings.daysUntilDelete ∧
      e.hasBeenRead = false := by
  simp only [markReadPred, deletePred, Bool.and_eq_true, Bool.not_eq_true',
    decide_eq_false_iff_not, decide_eq_true_eq, not_le]
  tauto

/-- Claim C1: every entry of the input whose floored age in days,
floor((now - creationTime) / 86400000), is at least daysUntilDelete is placed
by classifyEntries in toDelete and never in toMarkRead, regardless of its
hasBeenRead flag: the delete test is evaluated first and is exclusive. -/
theorem classifyEntries_delete_exclusive (entries : List Entry)
    (settings : Settings) (now : Int) (e : Entry) (he : e ∈ entries)
    (hd : settings.daysUntilDelete ≤ calculateDaysSinceCreation now e.creationTime) :
    e ∈ (classifyEntries entries settings now).2 ∧
      e ∉ (classifyEntries entries settings now).1 := by
  rw [classifyEntries_eq_filter]
  refine ⟨List.mem_filter.mpr ⟨he, by simp [deletePred, hd]⟩, fun hmem => ?_⟩
  have h := (List.mem_filter.mp hmem).2
  rw [markReadPred_eq_true_iff] at h
  exact absurd hd (not_le.mpr h.2.1)

/-- Concrete instance of classifyEntries_delete_exclusive: a 100-day-old entry
with thresholds 30/60. -/
theorem classifyEntries_delete_exclusive_witness :
    sampleEntry ∈ (classifyEntries [sampleEntry] ⟨30, 60⟩ (100 * msPerDay)).2 ∧
      sampleEntry ∉ (classifyEntries [sampleEntry] ⟨30, 60⟩ (100 * msPerDay)).1 :=
  classifyEntries_delete_exclusive [sampleEntry] ⟨30, 60⟩ (100 * msPerDay)
    sampleEntry (by decide) (by decide)

/-- Claim C3: an entry of the input is in toMarkRead exactly when
daysUntilRead <= daysSince < daysUntilDelete and hasBeenRead is false; in
particular an entry with hasBeenRead true and daysSince < daysUntilDelete is
in neither output sequence. -/
theorem classifyEntries_markRead_iff (entries : List Entry)
    (settings : Settings) (now : Int) (e : Entry) (he : e ∈ entries) :
    (e ∈ (classifyEntries entries settings now).1 ↔
      settings.daysUntilRead ≤ calculateDaysSinceCreation now e.creationTime ∧
      calculateDaysSinceCreation now e.creationTime < settings.daysUntilDelete ∧
      e.hasBeenRead = false) ∧
    (e.hasBeenRead = true →
      calculateDaysSinceCreation now e.creationTime < settings.daysUntilDelete →
      e ∉ (classifyEntries entries settings now).1 ∧
      e ∉ (classifyEntries entries settings now).2) := by
  rw [classifyEntries_eq_filter]
  constructor
  · rw [List.mem_filter, markReadPred_eq_true_iff]
    exact ⟨fun h => h.2, fun h => ⟨he, h⟩⟩
  · intro hb hlt
    constructor
    · intro hmem
      have h := (List.mem_filter.mp hmem).2
      rw [markReadPred_eq_true_iff] at h
      rw [hb] at h
      exact absurd h.2.2 (by simp)
    · intro hmem
      have h := (List.mem_filter.mp hmem).2
      simp only [deletePred, decide_eq_true_eq] at h
      exact absurd h (not_le.mpr hlt)

/-- Concrete instance of classifyEntries_markRead_iff: a 100-day-old unread
entry with thresholds 30/200 is in toMarkRead. -/
theorem classifyEntries_markRead_iff_witness :
    sampleEntry ∈ (classifyEntries [sampleEntry] ⟨30, 200⟩ (100 * msPerDay)).1 :=
  ((classifyEntries_markRead_iff [sampleEntry] ⟨30, 200⟩ (100 * msPerDay)
      sampleEntry (by decide)).1).mpr (by decide)

/-- Claim C9: classifyEntries is a deterministic, side-effect-free function of
(entries, settings, now): identical inputs yield identical results, and the
empty snapshot yields two empty sequences.  Side effects cannot occur in this
pure embedding; the source's internal Date.now() reads are the explicit now
argument. -/
theorem classifyEntries_deterministic :
    (∀ (entries1 entries2 : List Entry) (s1 s2 : Settings) (n1 n2 : Int),
        entries1 = entries2 → s1 = s2 → n1 = n2 →
        classifyEntries entries1 s1 n1 = classifyEntries entries2 s2 n2) ∧
    (∀ (s : Settings) (n : Int), classifyEntries [] s n = ([], [])) :=
  ⟨fun _ _ _ _ _ _ h1 h2 h3 => by rw [h1, h2, h3], fun _ _ => rfl⟩

/-- Concrete instance of classifyEntries_deterministic. -/
theorem classifyEntries_deterministic_witness :
    classifyEntries [sampleEntry] ⟨30, 60⟩ 0 = classifyEntries [sampleEntry] ⟨30, 60⟩ 0 :=
  classifyEntries_deterministic.1 [sampleEntry] [sampleEntry] ⟨30, 60⟩ ⟨30, 60⟩ 0 0
    rfl rfl rfl

/- ------------------------------------------------------------------ -/
/- Lemmas about the retry loop and the mutation executor.              -/
/- ------------------------------------------------------------------ -/

/-- An always-failing mutation never lets the retry loop succeed. -/
theorem retryMutation_fail_succeeded (a n : Nat) :
    (retryMutation (fun _ => false) a n).succeeded = false := by
  induction n generalizing a with
  | zero => rfl
  | succ n ih =>
    simp only [retryMutation]
    by_cases h : n = 0
    · simp [h]
    · simp [h, ih]

set_option maxRecDepth 4000 in
/-- Shifting the base of the backoff sequence by one step prepends one wait. -/
theorem range_map_pow_shift (a m : Nat) :
    2 ^ a * 1000 :: (List.range m).map (fun i => 2 ^ (a + 1 + i) * 1000) =
      (List.range (m + 1)).map fun i => 2 ^ (a + i) * 1000 := by
  rw [List.range_succ_eq_map, List.map_cons, List.map_map]
  congr 1
  refine List.map_congr_left fun i _ => ?_
  simp only [Function.comp_apply, Nat.succ_eq_add_one]
  rw [show a + 1 + i = a + (i + 1) by omega]

/-- Closed form of the retry loop under an always-failing mutation: it fails,
invokes the mutation once per allowed attempt, and waits 2 ^ (a + i) * 1000 ms
after the i-th failure except the last. -/
theorem retryMutation_fail_eq (a n : Nat) (h : 1 ≤ n) :
    retryMutation (fun _ => false) a n =
      ⟨false, n, (List.range (n - 1)).map fun i => 2 ^ (a + i) * 1000⟩ := by
  induction n generalizing a with
  | zero => exact absurd h (by omega)
  | succ n ih =>
    cases n with
    | zero => rfl
    | succ m =>
      have step : retryMutation (fun _ => false) a (m + 1 + 1) =
          ⟨(retryMutation (fun _ => false) (a + 1) (m + 1)).succeeded,
           (retryMutation (fun _ => false) (a + 1) (m + 1)).attempts + 1,
           2 ^ a * 1000 :: (retryMutation (fun _ => false) (a + 1) (m + 1)).waits⟩ := rfl
      rw [step, ih (a + 1) (by omega)]
      dsimp only
      simp only [show m + 1 - 1 = m by omega, show m + 1 + 1 - 1 = m + 1 by omega]
      rw [range_map_pow_shift]

/-- The retry loop makes at least one attempt whenever maxRetries >= 1. -/
theorem retryMutation_attempts_pos (o : Nat → Bool) (a n : Nat) (h : 1 ≤ n) :
    1 ≤ (retryMutation o a n).attempts := by
  cases n with
  | zero => omega
  | succ n =>
    simp only [retryMutation]
    split
    · exact Nat.le_refl 1
    · split
      · exact Nat.le_refl 1
      · exact Nat.le_add_left 1 _

/-- Closed form of the mark-as-read loop under an always-failing mutation: the
state is untouched, no success is counted, no mutation is issued, and every
entry records the same exhausted retry outcome. -/
theorem markMutationLoop_fail (m : Nat) (st l : List Entry) :
    markMutationLoop (fun _ _ => false) m st l =
      ⟨st, 0, List.replicate l.length (retryMutation (fun _ => false) 0 m), []⟩ := by
  induction l generalizing st with
  | nil => rfl
  | cons e rest ih =>
    simp only [markMutationLoop, retryMutation_fail_succeeded, ih]
    simp only [Bool.false_eq_true, if_false, List.length_cons]
    rw [List.replicate_succ]

/-- The mark-as-read loop records one retry outcome per processed entry: no
failing entry aborts the batch. -/
theorem markMutationLoop_results_length (o : String → Nat → Bool) (m : Nat)
    (st l : List Entry) :
    (markMutationLoop o m st l).results.length = l.length := by
  induction l generalizing st with
  | nil => rfl
  | cons e rest ih =>
    simp only [markMutationLoop]
    split <;> simp [ih]

/-- The successCount returned by the mark-as-read loop counts exactly the
entries whose retry loop succeeded. -/
theorem markMutationLoop_successCount (o : String → Nat → Bool) (m : Nat)
    (st l : List Entry) :
    (markMutationLoop o m st l).successCount =
      ((markMutationLoop o m st l).results.filter fun r => r.succeeded).length := by
  induction l generalizing st with
  | nil => rfl
  | cons e rest ih =>
    simp only [markMutationLoop]
    by_cases h : (retryMutation (o e.url) 0 m).succeeded = true
    · rw [if_pos h]
      simp [List.filter_cons, h, ih]
    · rw [if_neg h]
      simp only [Bool.not_eq_true] at h
      simp [List.filter_cons, h, ih]

/-- Every retry outcome recorded by the mark-as-read loop made at least one
attempt when maxRetries >= 1. -/
theorem markMutationLoop_attempts_pos (o : String → Nat → Bool) (m : Nat)
    (st l : List Entry) (hm : 1 ≤ m) :
    ∀ r ∈ (markMutationLoop o m st l).results, 1 ≤ r.attempts := by
  induction l generalizing st with
  | nil => intro r hr; simp [markMutationLoop] at hr
  | cons e rest ih =>
    intro r hr
    simp only [markMutationLoop] at hr
    by_cases h : (retryMutation (o e.url) 0 m).succeeded = true
    · rw [if_pos h] at hr
      rcases List.mem_cons.mp hr with h' | h'
      · rw [h']; exact retryMutation_attempts_pos _ _ _ hm
      · exact ih _ r h'
    · rw [if_neg h] at hr
      rcases List.mem_cons.mp hr with h' | h'
      · rw [h']; exact retryMutation_attempts_pos _ _ _ hm
      · exact ih _ r h'

/-- The delete loop records one retry outcome per processed entry. -/
theorem deleteMutationLoop_results_length (o : String → Nat → Bool) (m : Nat)
    (st l : List Entry) :
    (deleteMutationLoop o m st l).results.length = l.length := by
  induction l generalizing st with
  | nil => rfl
  | cons e rest ih =>
    simp only [deleteMutationLoop]
    split <;> simp [ih]

/-- The successCount returned by the delete loop counts exactly the entries
whose retry loop succeeded. -/
theorem deleteMutationLoop_successCount (o : String → Nat → Bool) (m : Nat)
    (st l : List Entry) :
    (deleteMutationLoop o m st l).successCount =
      ((deleteMutationLoop o m st l).results.filter fun r => r.succeeded).length := by
  induction l generalizing st with
  | nil => rfl
  | cons e rest ih =>
    simp only [deleteMutationLoop]
    by_cases h : (retryMutation (o e.url) 0 m).succeeded = true
    · rw [if_pos h]
      simp [List.filter_cons, h, ih]
    · rw [if_neg h]
      simp only [Bool.not_eq_true] at h
      simp [List.filter_cons, h, ih]

/-- Attempted minus succeeded equals failed, for any batch of retry
outcomes. -/
theorem length_sub_filter_succeeded (l : List RetryResult) :
    l.length - (l.filter fun r => r.succeeded).length =
      (l.filter fun r => !r.succeeded).length := by
  induction l with
  | nil => rfl
  | cons a l ih =>
    have hle := List.length_filter_le (fun r => r.succeeded) l
    cases h : a.succeeded with
    | true =>
      simp [List.filter_cons, h]
      omega
    | false =>
      simp [List.filter_cons, h]
      omega

/-- Claim C4: with a mutator that fails on every call and maxRetries = 2,
markAsReadIfOlder invokes the mutator exactly twice per selected entry,
returns 0 successes, and waits 1000 ms after the first failure and nothing
after the final one; in general, under total failure the wait recorded before
the n-th retry (1-indexed) is 2 ^ (n - 1) * 1000 ms. -/
theorem markAsReadIfOlder_retry_backoff (st : List Entry) (now threshold : Int) :
    ((markAsReadIfOlder st now threshold 2 fun _ _ => false).successCount = 0) ∧
    (∀ r ∈ (markAsReadIfOlder st now threshold 2 fun _ _ => false).results,
        r = ⟨false, 2, [1000]⟩) ∧
    (∀ m : Nat, 1 ≤ m →
      (retryMutation (fun _ => false) 0 m).waits =
        (List.range (m - 1)).map fun n => 2 ^ n * 1000) := by
  refine ⟨?_, ?_, ?_⟩
  · rw [markAsReadIfOlder, markMutationLoop_fail]
  · intro r hr
    rw [markAsReadIfOlder, markMutationLoop_fail] at hr
    rw [List.eq_of_mem_replicate hr]
    rfl
  · intro m hm
    rw [retryMutation_fail_eq 0 m hm]
    simp

/-- Concrete instance of markAsReadIfOlder_retry_backoff: one stale entry, two
allowed attempts, a single 1000 ms wait. -/
theorem markAsReadIfOlder_retry_backoff_witness :
    ((markAsReadIfOlder [sampleEntry] (100 * msPerDay) 30 2 fun _ _ => false).successCount = 0) ∧
    (retryMutation (fun _ => false) 0 2).waits = [1000] := by
  refine ⟨(markAsReadIfOlder_retry_backoff [sampleEntry] (100 * msPerDay) 30).1, ?_⟩
  rw [(markAsReadIfOlder_retry_backoff [] 0 0).2.2 2 (by decide)]
  decide

/-- Claim C5: for every batch and any pattern of per-attempt failures, the
executor records an outcome for every selected entry (an exhausted entry never
aborts the rest of the batch), each processed entry was attempted at least
once when maxRetries >= 1, and the returned successCount is the number of
entries successfully mutated, so attempted minus succeeded is the number of
failed entries.  Both markAsReadIfOlder and deleteIfOlder are covered. -/
theorem mutation_executor_isolation (st : List Entry) (now thM thD : Int)
    (m : Nat) (oM oD : String → Nat → Bool) (hm : 1 ≤ m) :
    ((markAsReadIfOlder st now thM m oM).results.length
        = (st.filter (markSelect now thM)).length) ∧
    ((deleteIfOlder st now thD m oD).results.length
        = (st.filter (deleteSelect now thD)).length) ∧
    (∀ r ∈ (markAsReadIfOlder st now thM m oM).results, 1 ≤ r.attempts) ∧
    ((markAsReadIfOlder st now thM m oM).successCount
        = ((markAsReadIfOlder st now thM m oM).results.filter fun r => r.succeeded).length) ∧
    ((deleteIfOlder st now thD m oD).successCount
        = ((deleteIfOlder st now thD m oD).results.filter fun r => r.succeeded).length) ∧
    ((markAsReadIfOlder st now thM m oM).results.length
          - (markAsReadIfOlder st now thM m oM).successCount
        = ((markAsReadIfOlder st now thM m oM).results.filter fun r => !r.succeeded).length) := by
  refine ⟨markMutationLoop_results_length _ _ _ _,
    deleteMutationLoop_results_length _ _ _ _,
    markMutationLoop_attempts_pos _ _ _ _ hm,
    markMutationLoop_successCount _ _ _ _,
    deleteMutationLoop_successCount _ _ _ _, ?_⟩
  rw [markAsReadIfOlder, markMutationLoop_successCount]
  exact length_sub_filter_succeeded _

/-- Concrete instance of mutation_executor_isolation: one selected entry whose
single mutation fails still yields a full batch of outcomes and 0 successes. -/
theorem mutation_executor_isolation_witness :
    (markAsReadIfOlder [sampleEntry] (100 * msPerDay) 30 1 fun _ _ => false).results.length
      = ([sampleEntry].filter (markSelect (100 * msPerDay) 30)).length :=
  (mutation_executor_isolation [sampleEntry] (100 * msPerDay) 30 60 1
    (fun _ _ => false) (fun _ _ => false) (by decide)).1

/- ------------------------------------------------------------------ -/
/- Settings defaults and orchestrator error propagation.               -/
/- ------------------------------------------------------------------ -/

/-- Claim C10: when the settings store returns no value for daysUntilRead
and/or daysUntilDelete, getSettings substitutes the defaults 30 and 60
respectively, so an empty store yields the effective settings {30, 60}. -/
theorem getSettings_defaults :
    getSettings (none, none) = ⟨30, 60⟩ ∧
    (∀ d : Int, getSettings (none, some d) = ⟨30, d⟩) ∧
    (∀ r : Int, getSettings (some r, none) = ⟨r, 60⟩) ∧
    (∀ r d : Int, getSettings (some r, some d) = ⟨r, d⟩) :=
  ⟨rfl, fun _ => rfl, fun _ => rfl, fun _ _ => rfl⟩

/-- Claim C6: processReadingList throws exactly when reading the settings or
one of the two snapshot fetches fails -- such a failure propagates without any
retry -- and for every mutation oracle, so per-entry mutation failures are
never escalated: a run whose sources succeed completes normally even when
every mutation fails. -/
theorem processReadingList_fatal_iff
    (settingsSrc : Except Unit (Option Int × Option Int))
    (fetch1Ok fetch2Ok : Bool) (st : List Entry) (now1 now2 : Int)
    (oracleMark oracleDelete : String → Nat → Bool) :
    isOkResult (processReadingList settingsSrc fetch1Ok fetch2Ok st now1 now2
        oracleMark oracleDelete)
      = (isOkResult settingsSrc && fetch1Ok && fetch2Ok) := by
  cases settingsSrc with
  | error e => rfl
  | ok stored =>
    cases fetch1Ok with
    | false => rfl
    | true =>
      cases fetch2Ok with
      | false => rfl
      | true => rfl

/- ------------------------------------------------------------------ -/
/- The mark-as-read age boundary (claim C7).                           -/
/- ------------------------------------------------------------------ -/

/-- Counterexample to claim C7: markEntriesAsRead of the third document of
part_002 uses the strict comparison creationTime < now - threshold, so an
unread entry whose age is exactly daysUntilRead * 86400000 ms is NOT selected
by it, although the claim asserts the exactly-threshold entry is selected for
mark-as-read; the filter of markAsReadIfOlder in background.ts does select the
same entry. -/
theorem markEntriesAsRead_boundary_cex :
    markEntriesAsReadFilter [sampleEntry] (30 * msPerDay) 30 = [] ∧
    markSelect (30 * msPerDay) 30 sampleEntry = true := by
  constructor <;> decide

/-- Claim C7 amended: markAsReadIfOlder of background.ts compares with >=, so
an unread entry whose age is exactly daysUntilRead * 86400000 ms is selected
and the same entry one millisecond younger is excluded; markEntriesAsRead of
part_002 instead compares strictly and selects exactly the entries strictly
older than the threshold, excluding the exactly-threshold entry. -/
theorem markRead_boundary (u t : String) (ct lu now r : Int) :
    (now - ct = r * msPerDay →
      markSelect now r ⟨u, t, false, ct, lu⟩ = true ∧
      markEntriesAsReadFilter [⟨u, t, false, ct, lu⟩] now r = []) ∧
    (now - ct = r * msPerDay - 1 →
      markSelect now r ⟨u, t, false, ct, lu⟩ = false) ∧
    (r * msPerDay + 1 ≤ now - ct →
      markEntriesAsReadFilter [⟨u, t, false, ct, lu⟩] now r = [⟨u, t, false, ct, lu⟩]) := by
  refine ⟨fun h => ⟨?_, ?_⟩, fun h => ?_, fun h => ?_⟩
  · simp only [msPerDay] at h
    simp [markSelect, msPerDay]
    omega
  · simp only [msPerDay] at h
    simp [markEntriesAsReadFilter, List.filter_cons, msPerDay]
    omega
  · simp only [msPerDay] at h
    simp [markSelect, msPerDay]
    omega
  · simp only [msPerDay] at h
    simp [markEntriesAsReadFilter, List.filter_cons, msPerDay]
    omega

/-- Concrete instance of markRead_boundary at exactly 30 days. -/
theorem markRead_boundary_witness :
    markSelect (30 * msPerDay) 30 ⟨"u", "t", false, 0, 0⟩ = true ∧
    markEntriesAsReadFilter [⟨"u", "t", false, 0, 0⟩] (30 * msPerDay) 30 = [] :=
  (markRead_boundary "u" "t" 0 0 (30 * msPerDay) 30).1 (by decide)

/- ------------------------------------------------------------------ -/
/- Phase ordering of the orchestrators (claim C2).                     -/
/- ------------------------------------------------------------------ -/

/-- An event is a delete exactly when it is not a mark. -/
theorem isDeleteEvent_eq_not_isMark (ev : MutEvent) :
    isDeleteEvent ev = !isMarkEvent ev := by
  cases ev <;> rfl

/-- Every mutation issued by the mark-as-read loop is a mark-as-read event. -/
theorem markMutationLoop_trace_marks (o : String → Nat → Bool) (m : Nat)
    (st l : List Entry) :
    ∀ ev ∈ (markMutationLoop o m st l).trace, isMarkEvent ev = true := by
  induction l generalizing st with
  | nil => intro ev hev; simp [markMutationLoop] at hev
  | cons e rest ih =>
    intro ev hev
    simp only [markMutationLoop] at hev
    by_cases h : (retryMutation (o e.url) 0 m).succeeded = true
    · rw [if_pos h] at hev
      rcases List.mem_cons.mp hev with h' | h'
      · rw [h']; rfl
      · exact ih _ ev h'
    · rw [if_neg h] at hev
      exact ih _ ev hev

/-- Every mutation issued by the delete loop is a delete event. -/
theorem deleteMutationLoop_trace_deletes (o : String → Nat → Bool) (m : Nat)
    (st l : List Entry) :
    ∀ ev ∈ (deleteMutationLoop o m st l).trace, isDeleteEvent ev = true := by
  induction l generalizing st with
  | nil => intro ev hev; simp [deleteMutationLoop] at hev
  | cons e rest ih =>
    intro ev hev
    simp only [deleteMutationLoop] at hev
    by_cases h : (retryMutation (o e.url) 0 m).succeeded = true
    · rw [if_pos h] at hev
      rcases List.mem_cons.mp hev with h' | h'
      · rw [h']; rfl
      · exact ih _ ev h'
    · rw [if_neg h] at hev
      exact ih _ ev hev

/-- Every mutation issued by the throwing delete loop of part_002 is a delete
event. -/
theorem runDeleteLoop_trace_deletes (o : String → Bool) (st l : List Entry) :
    ∀ ev ∈ (runDeleteLoop o st l).trace, isDeleteEvent ev = true := by
  induction l generalizing st with
  | nil => intro ev hev; simp [runDeleteLoop] at hev
  | cons e rest ih =>
    intro ev hev
    simp only [runDeleteLoop] at hev
    by_cases h : o e.url = true
    · rw [if_pos h] at hev
      rcases List.mem_cons.mp hev with h' | h'
      · rw [h']; rfl
      · exact ih _ ev h'
    · rw [if_neg h] at hev
      simp at hev

/-- Every mutation issued by the throwing mark-as-read loop of part_002 is a
mark-as-read event. -/
theorem runMarkLoop_trace_marks (o : String → Bool) (st l : List Entry) :
    ∀ ev ∈ (runMarkLoop o st l).trace, isMarkEvent ev = true := by
  induction l generalizing st with
  | nil => intro ev hev; simp [runMarkLoop] at hev
  | cons e rest ih =>
    intro ev hev
    simp only [runMarkLoop] at hev
    by_cases h : o e.url = true
    · rw [if_pos h] at hev
      rcases List.mem_cons.mp hev with h' | h'
      · rw [h']; rfl
      · exact ih _ ev h'
    · rw [if_neg h] at hev
      simp at hev

/-- A trace of marks followed by a trace of deletes has all marks first. -/
theorem marksFirst_append (tr1 tr2 : List MutEvent)
    (h1 : ∀ ev ∈ tr1, isMarkEvent ev = true)
    (h2 : ∀ ev ∈ tr2, isDeleteEvent ev = true) :
    marksFirst (tr1 ++ tr2) = true := by
  induction tr1 with
  | nil =>
    simp only [List.nil_append, marksFirst]
    cases tr2 with
    | nil => rfl
    | cons ev t =>
      have hd := h2 ev (List.mem_cons_self _ _)
      have hm : isMarkEvent ev = false := by
        rw [isDeleteEvent_eq_not_isMark] at hd
        cases hmm : isMarkEvent ev
        · rfl
        · rw [hmm] at hd; exact absurd hd (by decide)
      rw [List.dropWhile_cons, hm]
      simp only [Bool.false_eq_true, if_false]
      rw [List.all_eq_true]
      exact h2
  | cons ev t ih =>
    have hm := h1 ev (List.mem_cons_self _ _)
    have := ih fun x hx => h1 x (List.mem_cons_of_mem _ hx)
    rw [marksFirst] at this ⊢
    rw [List.cons_append, List.dropWhile_cons, hm]
    simpa using this

/-- A trace of deletes followed by a trace of marks has all deletes first. -/
theorem deletesFirst_append (tr1 tr2 : List MutEvent)
    (h1 : ∀ ev ∈ tr1, isDeleteEvent ev = true)
    (h2 : ∀ ev ∈ tr2, isMarkEvent ev = true) :
    deletesFirst (tr1 ++ tr2) = true := by
  induction tr1 with
  | nil =>
    simp only [List.nil_append, deletesFirst]
    cases tr2 with
    | nil => rfl
    | cons ev t =>
      have hmk := h2 ev (List.mem_cons_self _ _)
      have hd : isDeleteEvent ev = false := by
        rw [isDeleteEvent_eq_not_isMark, hmk]; rfl
      rw [List.dropWhile_cons, hd]
      simp only [Bool.false_eq_true, if_false]
      rw [List.all_eq_true]
      exact h2
  | cons ev t ih =>
    have hd := h1 ev (List.mem_cons_self _ _)
    have := ih fun x hx => h1 x (List.mem_cons_of_mem _ hx)
    rw [deletesFirst] at this ⊢
    rw [List.cons_append, List.dropWhile_cons, hd]
    simpa using this

/-- Counterexample to claim C2: in processReadingList of background.ts a
100-day-old unread entry is marked read by the first phase and deleted by the
second, so the trace of the run contains a mark-as-read mutation before a delete
mutation -- the delete mutations are not all executed first. -/
theorem processReadingList_delete_first_cex :
    okTrace (processReadingList (Except.ok (none, none)) true true [sampleEntry]
        (100 * msPerDay) (100 * msPerDay) (fun _ _ => true) (fun _ _ => true))
      = [MutEvent.markRead "u", MutEvent.delete "u"] ∧
    deletesFirst [MutEvent.markRead "u", MutEvent.delete "u"] = false := by
  constructor <;> decide

/-- Claim C2 amended: the two orchestrators order the phases differently.  In
every run of processReadingList (background.ts) all mark-as-read mutations are
executed before any delete mutation; in every run of processReadingListEntries
(part_002) all delete mutations are executed before any mark-as-read
mutation, each phase via its mutation loop. -/
theorem orchestrators_phase_order :
    (∀ (settingsSrc : Except Unit (Option Int × Option Int)) (f1 f2 : Bool)
        (st : List Entry) (n1 n2 : Int) (oM oD : String → Nat → Bool),
        marksFirst (okTrace (processReadingList settingsSrc f1 f2 st n1 n2 oM oD))
          = true) ∧
    (∀ (settings : Settings) (st : List Entry) (now : Int)
        (oD oM : String → Bool),
        deletesFirst (processReadingListEntries settings st now oD oM).trace
          = true) := by
  constructor
  · intro settingsSrc f1 f2 st n1 n2 oM oD
    cases settingsSrc with
    | error e => rfl
    | ok stored =>
      cases f1 with
      | false => rfl
      | true =>
        cases f2 with
        | false => rfl
        | true =>
          have hok : okTrace (processReadingList (Except.ok stored) true true st n1 n2 oM oD)
              = (markAsReadIfOlder st n1 (getSettings stored).daysUntilRead 3 oM).trace ++
                (deleteIfOlder (markAsReadIfOlder st n1 (getSettings stored).daysUntilRead 3 oM).state
                  n2 (getSettings stored).daysUntilDelete 3 oD).trace := rfl
          rw [hok]
          exact marksFirst_append _ _
            (markMutationLoop_trace_marks _ _ _ _)
            (deleteMutationLoop_trace_deletes _ _ _ _)
  · intro settings st now oD oM
    rw [processReadingListEntries]
    by_cases h : (runDeleteLoop oD st (classifyEntries st settings now).2).completed = true
    · rw [if_pos h]
      exact deletesFirst_append _ _
        (runDeleteLoop_trace_deletes _ _ _)
        (runMarkLoop_trace_marks _ _ _)
    · rw [if_neg h]
      have := deletesFirst_append
        (runDeleteLoop oD st (classifyEntries st settings now).2).trace []
        (runDeleteLoop_trace_deletes _ _ _) (by intro ev hev; simp at hev)
      rw [List.append_nil] at this
      exact this

/- ------------------------------------------------------------------ -/
/- Both mutations in one run (claim C8).                               -/
/- ------------------------------------------------------------------ -/

/-- With an always-succeeding mutation the retry loop succeeds on the first
attempt whenever at least one attempt is allowed. -/
theorem retryMutation_true_succeeded (a m : Nat) (hm : 1 ≤ m) :
    (retryMutation (fun _ => true) a m).succeeded = true := by
  cases m with
  | zero => omega
  | succ m => rfl

/-- With an always-succeeding mutation the mark-as-read loop issues exactly
one mark-as-read event per entry, in order. -/
theorem markMutationLoop_trace_true (m : Nat) (hm : 1 ≤ m) (st l : List Entry) :
    (markMutationLoop (fun _ _ => true) m st l).trace =
      l.map fun e => MutEvent.markRead e.url := by
  induction l generalizing st with
  | nil => rfl
  | cons e rest ih =>
    simp only [markMutationLoop]
    rw [if_pos (retryMutation_true_succeeded 0 m hm)]
    simp [ih]

/-- With an always-succeeding mutation the delete loop issues exactly one
delete event per entry, in order. -/
theorem deleteMutationLoop_trace_true (m : Nat) (hm : 1 ≤ m) (st l : List Entry) :
    (deleteMutationLoop (fun _ _ => true) m st l).trace =
      l.map fun e => MutEvent.delete e.url := by
  induction l generalizing st with
  | nil => rfl
  | cons e rest ih =>
    simp only [deleteMutationLoop]
    rw [if_pos (retryMutation_true_succeeded 0 m hm)]
    simp [ih]

/-- Marking a url read preserves the url and creation time. -/
theorem markUrlRead_mem (st : List Entry) (u : String) (e : Entry)
    (he : e ∈ st) :
    ∃ e' ∈ markUrlRead st u, e'.url = e.url ∧ e'.creationTime = e.creationTime := by
  refine ⟨if e.url = u then { e with hasBeenRead := true } else e,
    List.mem_map_of_mem _ he, ?_, ?_⟩
  · by_cases hx : e.url = u <;> simp [hx]
  · by_cases hx : e.url = u <;> simp [hx]

/-- The state left by the mark-as-read loop still contains, for every entry of
the incoming state, an entry with the same url and creation time. -/
theorem markMutationLoop_state_mem (o : String → Nat → Bool) (m : Nat)
    (l : List Entry) :
    ∀ (st : List Entry) (e : Entry), e ∈ st →
      ∃ e' ∈ (markMutationLoop o m st l).state,
        e'.url = e.url ∧ e'.creationTime = e.creationTime := by
  induction l with
  | nil => intro st e he; exact ⟨e, he, rfl, rfl⟩
  | cons x rest ih =>
    intro st e he
    simp only [markMutationLoop]
    by_cases h : (retryMutation (o x.url) 0 m).succeeded = true
    · rw [if_pos h]
      obtain ⟨e1, hm1, hu1, hc1⟩ := markUrlRead_mem st x.url e he
      obtain ⟨e', hmem, hu, hc⟩ := ih (markUrlRead st x.url) e1 hm1
      exact ⟨e', hmem, by rw [hu, hu1], by rw [hc, hc1]⟩
    · rw [if_neg h]
      exact ih st e he

/-- Claim C8 (implicit in background.ts): when daysUntilRead <=
daysUntilDelete, an unread entry old enough for the delete threshold receives
both mutations in a single processReadingList run: the mark-as-read phase
selects it (its filter has no upper age bound) and the delete phase, operating
on the separately re-fetched state, then deletes it; the phases are not
mutually exclusive at the orchestrator level. -/
theorem processReadingList_double_mutation (st : List Entry)
    (stored : Option Int × Option Int) (now1 now2 : Int) (e : Entry)
    (he : e ∈ st) (hu : e.hasBeenRead = false)
    (hage : (getSettings stored).daysUntilDelete * msPerDay ≤ now1 - e.creationTime)
    (hrd : (getSettings stored).daysUntilRead ≤ (getSettings stored).daysUntilDelete)
    (hnow : now1 ≤ now2) :
    MutEvent.markRead e.url ∈ okTrace (processReadingList (Except.ok stored) true true
        st now1 now2 (fun _ _ => true) (fun _ _ => true)) ∧
    MutEvent.delete e.url ∈ okTrace (processReadingList (Except.ok stored) true true
        st now1 now2 (fun _ _ => true) (fun _ _ => true)) := by
  have hms : (0:Int) ≤ msPerDay := by decide
  have hread : (getSettings stored).daysUntilRead * msPerDay ≤ now1 - e.creationTime :=
    le_trans (mul_le_mul_of_nonneg_right hrd hms) hage
  have hsel : markSelect now1 (getSettings stored).daysUntilRead e = true := by
    simp [markSelect, hu, hread]
  have hok : okTrace (processReadingList (Except.ok stored) true true st now1 now2
      (fun _ _ => true) (fun _ _ => true))
      = (markAsReadIfOlder st now1 (getSettings stored).daysUntilRead 3 fun _ _ => true).trace ++
        (deleteIfOlder
          (markAsReadIfOlder st now1 (getSettings stored).daysUntilRead 3 fun _ _ => true).state
          now2 (getSettings stored).daysUntilDelete 3 fun _ _ => true).trace := rfl
  rw [hok]
  constructor
  · apply List.mem_append_left
    rw [markAsReadIfOlder, markMutationLoop_trace_true 3 (by omega)]
    exact List.mem_map_of_mem _ (List.mem_filter.mpr ⟨he, hsel⟩)
  · apply List.mem_append_right
    obtain ⟨e', hmem, hu', hc'⟩ := markMutationLoop_state_mem (fun _ _ => true) 3
      (st.filter (markSelect now1 (getSettings stored).daysUntilRead)) st e he
    have hsel' : deleteSelect now2 (getSettings stored).daysUntilDelete e' = true := by
      simp only [deleteSelect, decide_eq_true_eq, hc']
      linarith
    rw [deleteIfOlder, deleteMutationLoop_trace_true 3 (by omega)]
    rw [← hu']
    exact List.mem_map_of_mem _ (List.mem_filter.mpr ⟨hmem, hsel'⟩)

/-- Concrete instance of processReadingList_double_mutation: a 100-day-old
unread entry with the default thresholds 30/60 is both marked read and
deleted in one run. -/
theorem processReadingList_double_mutation_witness :
    MutEvent.markRead sampleEntry.url ∈ okTrace (processReadingList
        (Except.ok (none, none)) true true [sampleEntry]
        (100 * msPerDay) (100 * msPerDay) (fun _ _ => true) (fun _ _ => true)) ∧
    MutEvent.delete sampleEntry.url ∈ okTrace (processReadingList
        (Except.ok (none, none)) true true [sampleEntry]
        (100 * msPerDay) (100 * msPerDay) (fun _ _ => true) (fun _ _ => true)) :=
  processReadingList_double_mutation [sampleEntry] (none, none)
    (100 * msPerDay) (100 * msPerDay) sampleEntry
    (by decide) (by decide) (by decide) (by decide) (by decide)
